import Mathlib

/-!
Verification of the call-scoped relay layer of the Kokoro TTS service
(`kokoro_service.py`, registry variant, and `bin/kokoro_service.py`,
streaming variant).  The Python functions are shallowly embedded as pure
Lean functions; socket I/O outcomes (dial success, write success, bytes
available per `recv` call) are passed in explicitly as oracles, so every
definition is executable on concrete inputs.
-/

namespace Kokoro

/-! ## Outbound port derivation (`calculate_outbound_port`)

Python's `int(call_id)` strips surrounding whitespace, accepts an optional
sign, and then decimal digits possibly separated by single underscores.
`pyParseInt` reproduces that for ASCII strings. -/

/-- One step of Python decimal-literal parsing: `prevDigit` records whether
the previous character was a digit (an underscore is only legal between two
digits, and the literal must end in a digit). -/
def pyDigits : Nat → Bool → List Char → Option Nat
  | acc, prevDigit, [] => if prevDigit then some acc else none
  | acc, prevDigit, c :: cs =>
    if c = '_' then
      if prevDigit then pyDigits acc false cs else none
    else if c.isDigit then
      pyDigits (10 * acc + (c.toNat - 48)) true cs
    else none

/-- `int(s)` for a Python `str`: strip whitespace, optional sign, digits. -/
def pyParseInt (s : String) : Option Int :=
  let cs := (s.toList.dropWhile Char.isWhitespace).reverse.dropWhile Char.isWhitespace
  match cs.reverse with
  | '-' :: rest => (pyDigits 0 false rest).map (fun n => -(n : Int))
  | '+' :: rest => (pyDigits 0 false rest).map (fun n => (n : Int))
  | other => (pyDigits 0 false other).map (fun n => (n : Int))

/-- `calculate_outbound_port`: `9002 + int(call_id)`, falling back to `9002`
when `int(call_id)` raises `ValueError`. -/
def calculate_outbound_port (call_id : String) : Int :=
  match pyParseInt call_id with
  | some n => 9002 + n
  | none => 9002

/-! ## Dial retry schedule (`connect_to_outbound_processor`)

`sleep_ms = 200 if attempt <= 5 else 1000`, up to `max_attempts = 10`;
the sleep happens after every failed attempt, including the last. -/

/-- Milliseconds slept after failed dial attempt `k` (1-based). -/
def sleepAfter (k : Nat) : Nat := if k ≤ 5 then 200 else 1000

/-- Time (ms since the first dial) at which attempt `k` is issued. -/
def attemptTime : Nat → Nat
  | 0 => 0
  | 1 => 0
  | k + 2 => attemptTime (k + 1) + sleepAfter (k + 1)

/-- The dial loop: attempt numbers start at `k`, `r` attempts remain, and
`dialOk j` says whether the TCP connect on attempt `j` succeeds.  Returns
(successful attempt if any, attempts made, total milliseconds slept). -/
def dialLoop (dialOk : Nat → Bool) : Nat → Nat → Option Nat × Nat × Nat
  | _, 0 => (none, 0, 0)
  | k, r + 1 =>
    if dialOk k then (some k, 1, 0)
    else
      ((dialLoop dialOk (k + 1) r).1, (dialLoop dialOk (k + 1) r).2.1 + 1,
        sleepAfter k + (dialLoop dialOk (k + 1) r).2.2)

/-- Dial oracle for a peer that is absent until `a` ms after the first
attempt and available from then on. -/
def availDial (a : Nat) : Nat → Bool := fun k => decide (a ≤ attemptTime k)

/-! ## Per-call session state (registry variant)

`registered` models membership in `registered_calls`, `connected`
membership in `outbound_sockets`, `ctr` the `chunk_counters` entry, and
`gen` is a ghost generation counter: it is bumped exactly when a new socket
is stored in `outbound_sockets`, so it counts outbound connections ever
created for the call and tags each emission with the connection it used. -/

structure CallState where
  registered : Bool
  connected : Bool
  ctr : Nat
  gen : Nat
  deriving Repr, DecidableEq

def initState : CallState := ⟨false, false, 0, 0⟩

structure ConnectResult where
  st : CallState
  ok : Bool
  attempts : Nat
  elapsedMs : Nat
  deriving Repr, DecidableEq

/-- `connect_to_outbound_processor`: returns immediately when the call
already has a socket; otherwise dials up to 10 times and on success stores
the socket and resets `chunk_counters[call_id] = 0`. -/
def connect_to_outbound_processor (st : CallState) (dialOk : Nat → Bool) : ConnectResult :=
  if st.connected then ⟨st, true, 0, 0⟩
  else
    match dialLoop dialOk 1 10 with
    | (some _, n, t) => ⟨{ st with connected := true, ctr := 0, gen := st.gen + 1 }, true, n, t⟩
    | (none, n, t) => ⟨st, false, n, t⟩

structure SendResult where
  st : CallState
  ok : Bool
  emitted : List (Nat × Nat)
  deriving Repr, DecidableEq

/-- `send_audio_to_outbound`: if no socket exists, return `False`;
otherwise increment the chunk counter and transmit one frame with that id
(`ioOk` is the outcome of the two `sendall` calls).  On an I/O error the
socket is closed and removed from `outbound_sockets` before returning.
`emitted` records `(connection generation, chunk id)` pairs that reached
the wire. -/
def send_audio_to_outbound (st : CallState) (ioOk : Bool) : SendResult :=
  if st.connected then
    let st1 := { st with ctr := st.ctr + 1 }
    if ioOk then ⟨st1, true, [(st1.gen, st1.ctr)]⟩
    else ⟨{ st1 with connected := false }, false, []⟩
  else ⟨st, false, []⟩

/-- `close_outbound_connection`: send the zero-length BYE header (carrying
no chunk id) and drop the socket. -/
def close_outbound_connection (st : CallState) : CallState :=
  { st with connected := false }

structure RelayResult where
  st : CallState
  emitted : List (Nat × Nat)
  sendCalls : Nat
  connectCalls : Nat
  delivered : Bool
  elapsedMs : Nat
  deriving Repr, DecidableEq

/-- The audio-relay block of `handle_client` (registry variant): send the
synthesized buffer; on failure attempt one reconnect and, if it succeeds,
one resend; otherwise drop the frame.  `elapsedMs` is the time slept inside
the reconnect's dial loop. -/
def relayAudio (st : CallState) (ioOk1 : Bool) (dialOk : Nat → Bool) (ioOk2 : Bool) :
    RelayResult :=
  let r1 := send_audio_to_outbound st ioOk1
  if r1.ok then ⟨r1.st, r1.emitted, 1, 0, true, 0⟩
  else
    let c := connect_to_outbound_processor r1.st dialOk
    if c.ok then
      let r2 := send_audio_to_outbound c.st ioOk2
      ⟨r2.st, r1.emitted ++ r2.emitted, 2, 1, r2.ok, c.elapsedMs⟩
    else ⟨c.st, r1.emitted, 1, 1, false, c.elapsedMs⟩

/-! ## Event traces for one call -/

/-- The three actors that touch one call's session state, serialized:
a `REGISTER:<callID>` datagram (which upserts the registration record and
triggers the connector), one audio-relay step of the inbound handler, and a
`BYE:<callID>` datagram (which removes the record and closes the outbound
connection). -/
inductive Ev where
  | register (dialOk : Nat → Bool)
  | audio (ioOk1 : Bool) (dialOk : Nat → Bool) (ioOk2 : Bool)
  | bye

def stepEv (st : CallState) : Ev → CallState × List (Nat × Nat)
  | .register dialOk =>
    ((connect_to_outbound_processor { st with registered := true } dialOk).st, [])
  | .audio a d b =>
    let r := relayAudio st a d b
    (r.st, r.emitted)
  | .bye => (close_outbound_connection { st with registered := false }, [])

def runTrace (st : CallState) : List Ev → CallState × List (Nat × Nat)
  | [] => (st, [])
  | e :: evs =>
    let p := stepEv st e
    let q := runTrace p.1 evs
    (q.1, p.2 ++ q.2)

/-- The chunk ids emitted on connection generation `g`, in wire order. -/
def emittedFor (g : Nat) (ems : List (Nat × Nat)) : List Nat :=
  (ems.filter (fun p => p.1 == g)).map Prod.snd

/-! ## Synthesis wrapper (`synthesize`, registry variant)

The pipeline is the external collaborator; it is abstracted as the list of
`result.audio` values it yields (`none` entries are yielded results whose
`audio` field is `None`), plus a flag saying whether iterating it raises.
Samples are opaque words (float32 bit patterns).  The wrapper's result is
`(audio buffer or None, sample_rate)`; the code returns `(None, 0, 0)` both
when the pipeline yields no audio and when it raises. -/
def synthesize (raises : Bool) (chunks : List (Option (List Int))) :
    Option (List Int) × Nat :=
  if raises then (none, 0)
  else
    let collected := chunks.filterMap id
    if collected.isEmpty then (none, 0)
    else (some collected.flatten, 24000)

/-! ## Audio Streaming Splitter (`bin/kokoro_service.py` lines 341-371)

`subchunk_size = int(sample_rate * (40 / 1000.0))` with the hard-coded
`sample_rate = 24000`, i.e. exactly 960 samples per window. -/

def subchunkSize : Nat := 24000 * 40 / 1000

/-- `for i in range(0, len(audio), subchunk_size): frame = audio[i:i+subchunk_size]`. -/
def splitAudio {α : Type} : List α → List (List α)
  | [] => []
  | x :: xs => ((x :: xs).take subchunkSize) :: splitAudio ((x :: xs).drop subchunkSize)
  termination_by l => l.length
  decreasing_by simp [subchunkSize]; omega

/-- The splitter's emission loop: each window is sent with the next chunk
id (`chunk_id += 1` before the send), starting from the running value `c0`. -/
def sendSplit {α : Type} (c0 : Nat) : List α → List (Nat × List α)
  | [] => []
  | x :: xs =>
    (c0 + 1, (x :: xs).take subchunkSize) :: sendSplit (c0 + 1) ((x :: xs).drop subchunkSize)
  termination_by l => l.length
  decreasing_by simp [subchunkSize]; omega

/-! ## Framed Message Channel -/

/-- `struct.unpack('!I', b)` on a 4-byte buffer: big-endian 32-bit read. -/
def beU32 (b : List Nat) : Nat :=
  match b with
  | [b0, b1, b2, b3] => ((b0 * 256 + b1) * 256 + b2) * 256 + b3
  | _ => 0

/-- `struct.pack('!I', n)` for `n < 2^32`. -/
def beBytes (n : Nat) : List Nat :=
  [n / 16777216 % 256, n / 65536 % 256, n / 256 % 256, n % 256]

/-- A length-prefixed frame as it appears on the wire. -/
def encodeFrame (p : List Nat) : List Nat := beBytes p.length ++ p

def encodeFrames (ps : List (List Nat)) : List Nat := (ps.map encodeFrame).flatten

/-- Reading exactly `n` bytes from a stream whose remaining bytes are
known: succeeds with the split iff at least `n` bytes arrive before the
peer closes. -/
def takeN (n : Nat) (s : List Nat) : Option (List Nat × List Nat) :=
  if n ≤ s.length then some (s.take n, s.drop n) else none

theorem takeN_eq_some {n : Nat} {s a b : List Nat} (h : takeN n s = some (a, b)) :
    n ≤ s.length ∧ a = s.take n ∧ b = s.drop n := by
  simp only [takeN] at h
  split at h <;> simp_all [eq_comm]

/-- One `sock.recv(n)` call: the kernel returns the `s` bytes currently
buffered (at least one when data is pending, capped at `n`); an empty
result means the peer closed. -/
def recvOnce (n : Nat) (data : List Nat) (s : Nat) : List Nat :=
  data.take (min n (max 1 s))

/-- `_recv_exact(sock, n)` (`bin/kokoro_service.py` lines 273-280): loop
`recv` until `n` bytes are accumulated, returning `None` if the peer
closes first.  `data` is every byte that will arrive before the close and
`sizes` scripts how the kernel chunks successive `recv` returns.  Returns
the payload plus the unconsumed data and script. -/
def recvExact (n : Nat) (data : List Nat) (sizes : List Nat) :
    Option (List Nat × List Nat × List Nat) :=
  if h : n = 0 then some ([], data, sizes)
  else
    match data with
    | [] => none
    | d :: ds =>
      let c := min n (max 1 (sizes.headD n))
      let chunk := (d :: ds).take c
      match recvExact (n - chunk.length) ((d :: ds).drop chunk.length) sizes.tail with
      | none => none
      | some (restBytes, data', sizes') => some (chunk ++ restBytes, data', sizes')
  termination_by n
  decreasing_by
    have hc : 1 ≤ min n (max 1 (sizes.headD n)) := by
      have : 1 ≤ n := Nat.one_le_iff_ne_zero.mpr h
      simp [Nat.le_min, this]
    have : 1 ≤ ((d :: ds).take (min n (max 1 (sizes.headD n)))).length := by
      simp only [List.length_take, List.length_cons]
      omega
    omega

/-! ## Inbound text loop (`handle_client`, registry variant, lines 307-354)

The loop repeatedly reads a 4-byte length; `0xFFFFFFFF` is the end-of-call
sentinel, `0` or more than 10 MiB a protocol violation; otherwise the
payload is read, decoded (`decodeOk` abstracts `bytes.decode('utf-8')`
succeeding; a decode error escapes the loop as an exception) and
synthesized (`synth`, the wrapper above: `none` covers both a synthesis
error and zero audio).  Non-empty audio is relayed with the next scripted
I/O outcomes.  Reads are at the full-frame granularity of `takeN`. -/

def MAX_TEXT : Nat := 10 * 1024 * 1024

def SENTINEL : Nat := 0xFFFFFFFF

inductive ExitReason where
  | bye | disconnect | violation | decodeError
  deriving Repr, DecidableEq

structure LoopResult where
  exit : ExitReason
  texts : List (List Nat)
  st : CallState
  emitted : List (Nat × Nat)
  deriving Repr, DecidableEq

def textLoop (synth : List Nat → Option (List Int)) (decodeOk : List Nat → Bool)
    (stream : List Nat) (script : List (Bool × (Nat → Bool) × Bool)) (st : CallState) :
    LoopResult :=
  match h4 : takeN 4 stream with
  | none => ⟨.disconnect, [], st, []⟩
  | some (lb, rest) =>
    let L := beU32 lb
    if L = SENTINEL then ⟨.bye, [], st, []⟩
    else if L = 0 ∨ MAX_TEXT < L then ⟨.violation, [], st, []⟩
    else
      match hp : takeN L rest with
      | none => ⟨.disconnect, [], st, []⟩
      | some (payload, rest2) =>
        if decodeOk payload then
          match synth payload with
          | some audio =>
            if audio.isEmpty then
              let r := textLoop synth decodeOk rest2 script st
              ⟨r.exit, payload :: r.texts, r.st, r.emitted⟩
            else
              let io := script.headD (true, fun _ => true, true)
              let rel := relayAudio st io.1 io.2.1 io.2.2
              let r := textLoop synth decodeOk rest2 script.tail rel.st
              ⟨r.exit, payload :: r.texts, r.st, rel.emitted ++ r.emitted⟩
          | none =>
            let r := textLoop synth decodeOk rest2 script st
            ⟨r.exit, payload :: r.texts, r.st, r.emitted⟩
        else ⟨.decodeError, [], st, []⟩
  termination_by stream.length
  decreasing_by
    all_goals
      obtain ⟨hs4, -, hrest⟩ := takeN_eq_some h4
      obtain ⟨hsL, -, hrest2⟩ := takeN_eq_some hp
      subst hrest2
      subst hrest
      simp only [List.length_drop]
      omega

/-! ## Basic lemmas -/

theorem emittedFor_append (g : Nat) (a b : List (Nat × Nat)) :
    emittedFor g (a ++ b) = emittedFor g a ++ emittedFor g b := by
  simp [emittedFor, List.filter_append]

theorem dialLoop_attempts_le (dialOk : Nat → Bool) :
    ∀ r k, (dialLoop dialOk k r).2.1 ≤ r := by
  intro r
  induction r with
  | zero => intro k; simp [dialLoop]
  | succ r ih =>
    intro k
    simp only [dialLoop]
    split
    · simp
    · have := ih (k + 1)
      simp
      omega

theorem dialLoop_none (dialOk : Nat → Bool) :
    ∀ r k, (dialLoop dialOk k r).1 = none →
      (dialLoop dialOk k r).2.1 = r ∧
      (dialLoop dialOk k r).2.2 = ((List.range' k r).map sleepAfter).sum := by
  intro r
  induction r with
  | zero => intro k _; simp [dialLoop]
  | succ r ih =>
    intro k h
    simp only [dialLoop] at h ⊢
    split at h
    · simp at h
    · rename_i hk
      simp only [hk, if_neg, Bool.false_eq_true, if_false] at *
      rcases ih (k + 1) h with ⟨h1, h2⟩
      simp [List.range'_succ, h1, h2]

/-- C10: for a `callID` that does not parse as a decimal integer
`calculate_outbound_port` returns the base port 9002 — the same port as the
numeric id `"0"` — and for a negative numeric id `n` it returns `9002 + n`,
below the base port; distinct non-numeric ids therefore collide. -/
theorem outbound_port_fallback :
    (∀ s, pyParseInt s = none → calculate_outbound_port s = 9002) ∧
    calculate_outbound_port "0" = 9002 ∧
    (∀ s n, pyParseInt s = some n → calculate_outbound_port s = 9002 + n) ∧
    (∀ s n, pyParseInt s = some n → n < 0 → calculate_outbound_port s < 9002) ∧
    calculate_outbound_port "-5" = 8997 ∧
    calculate_outbound_port "abc" = 9002 ∧
    calculate_outbound_port "xyz" = 9002 ∧
    ("abc" : String) ≠ "xyz" := by
  refine ⟨?_, by decide, ?_, ?_, by decide, by decide, by decide, by decide⟩
  · intro s h; simp [calculate_outbound_port, h]
  · intro s n h; simp [calculate_outbound_port, h]
  · intro s n h hn; simp [calculate_outbound_port, h]; omega

/-- Witness for `outbound_port_fallback` at concrete inputs. -/
theorem outbound_port_fallback_witness :
    calculate_outbound_port "zz9" = 9002 ∧
    calculate_outbound_port "42" = 9002 + 42 ∧
    calculate_outbound_port "-7" < 9002 := by
  refine ⟨outbound_port_fallback.1 "zz9" (by decide),
    outbound_port_fallback.2.2.1 "42" 42 (by decide),
    outbound_port_fallback.2.2.2.1 "-7" (-7) (by decide) (by decide)⟩

/-- C3 counterexample: with the downstream peer absent for 1.3 s then
available, the dial loop succeeds on attempt 7 after 2000 ms of sleeps —
not at ≈1.4 s; indeed no attempt is scheduled at 1400 ms at all (the
schedule runs 0, 200, ..., 1000, 2000, 3000, ... ms). -/
theorem dial_schedule_cex :
    dialLoop (availDial 1300) 1 10 = (some 7, 7, 2000) ∧
    attemptTime 6 = 1000 ∧ attemptTime 7 = 2000 ∧
    ((List.range' 1 10).all fun k => attemptTime k != 1400) = true := by
  decide

/-- C3 (amended): the connector makes at most 10 dial attempts, sleeping
200 ms after each of the first five failed attempts and 1000 ms after each
later one; with the peer absent for 1.3 s then available it succeeds on the
attempt scheduled at 2.0 s (attempt 7) and never earlier (attempts 1-6 all
fall before 1.3 s); exhausting all attempts returns failure with no
connection made, after 6000 ms of sleeps. -/
theorem connect_retry_schedule (st : CallState) (dialOk : Nat → Bool)
    (hc : st.connected = false) (hfail : (dialLoop dialOk 1 10).1 = none) :
    ((dialLoop dialOk 1 10).2.1 ≤ 10) ∧
    (∀ k, 1 ≤ k → k ≤ 5 → sleepAfter k = 200) ∧
    (∀ k, 6 ≤ k → sleepAfter k = 1000) ∧
    dialLoop (availDial 1300) 1 10 = (some 7, 7, 2000) ∧
    (∀ k, 1 ≤ k → k ≤ 6 → availDial 1300 k = false) ∧
    connect_to_outbound_processor st dialOk = ⟨st, false, 10, 6000⟩ := by
  refine ⟨dialLoop_attempts_le dialOk 10 1, ?_, ?_, by decide, ?_, ?_⟩
  · intro k _ h2; simp [sleepAfter, h2]
  · intro k h6; simp [sleepAfter]; omega
  · intro k h1 h6; interval_cases k <;> decide
  · rcases dialLoop_none dialOk 10 1 hfail with ⟨ha, he⟩
    rcases hd : dialLoop dialOk 1 10 with ⟨res, n, t⟩
    rw [hd] at hfail ha he
    simp at hfail ha he
    subst hfail
    subst ha
    subst he
    simp [connect_to_outbound_processor, hc, hd]
    decide

/-- Witness for `connect_retry_schedule` at a concrete never-available
peer. -/
theorem connect_retry_schedule_witness :
    (dialLoop (fun _ => false) 1 10).2.1 ≤ 10 ∧
    sleepAfter 3 = 200 ∧ sleepAfter 8 = 1000 ∧
    availDial 1300 6 = false ∧
    connect_to_outbound_processor initState (fun _ => false) =
      ⟨initState, false, 10, 6000⟩ := by
  have h := connect_retry_schedule initState (fun _ => false) (by decide) (by decide)
  exact ⟨h.1, h.2.1 3 (by decide) (by decide), h.2.2.1 8 (by decide),
    h.2.2.2.2.1 6 (by decide) (by decide), h.2.2.2.2.2⟩

/-- C8 counterexample: `synthesize` returns the identical `(None, 0)`
result when the pipeline raises and when it yields zero audio — failure is
not reported distinctly from producing zero audio. -/
theorem synthesize_not_distinct_cex :
    synthesize true [some [3]] = (none, 0) ∧
    synthesize false [] = (none, 0) ∧
    synthesize true [some [3]] = synthesize false [] := by
  decide

/-- C1 counterexample: after `register` connects, one frame is sent
(chunk id 1), then a mid-send I/O failure evicts the socket and the
handler's reconnect resets `chunk_counters[call_id]` to 0, so the resent
frame goes out with chunk id 1 again — the sequence value 1 is sent twice
within one session. -/
theorem chunkSeq_reuse_cex :
    ((runTrace initState
        [Ev.register (fun _ => true), Ev.audio true (fun _ => true) true,
         Ev.audio false (fun _ => true) true]).2).map Prod.snd = [1, 1] := by
  decide

/-- C9 counterexample: for audio synthesized while the call has no
outbound connection, the handler does not simply drop it — it dials the
downstream peer and, if the dial succeeds, sends the audio (first
conjunct); and when the peer stays absent the dial loop sleeps 6000 ms
before giving up, blocking the inbound loop (second conjunct). -/
theorem relay_no_connection_cex :
    (relayAudio initState true (fun _ => true) true).emitted = [(1, 1)] ∧
    (relayAudio initState true (fun _ => false) true).elapsedMs = 6000 := by
  decide

/-- C5: a second REGISTER datagram for a call that already has an outbound
connection is a no-op — the connector returns without dialing (0 attempts),
the session state is unchanged, and exactly one outbound connection was
ever created (`gen = 1`). -/
theorem register_idempotent (d1 d2 : Nat → Bool)
    (h : ((runTrace initState [Ev.register d1]).1).connected = true) :
    runTrace initState [Ev.register d1, Ev.register d2] =
      ((runTrace initState [Ev.register d1]).1, []) ∧
    ((runTrace initState [Ev.register d1]).1).gen = 1 ∧
    (connect_to_outbound_processor (runTrace initState [Ev.register d1]).1 d2).attempts
      = 0 := by
  simp only [runTrace, stepEv] at h ⊢
  rcases hd : dialLoop d1 1 10 with ⟨res, n, t⟩
  cases res with
  | none =>
    simp [connect_to_outbound_processor, initState, hd] at h
  | some k =>
    simp [connect_to_outbound_processor, initState, hd]

/-- Witness for `register_idempotent` with an immediately-available peer. -/
theorem register_idempotent_witness :
    runTrace initState [Ev.register (fun _ => true), Ev.register (fun _ => false)] =
      ((runTrace initState [Ev.register (fun _ => true)]).1, []) ∧
    ((runTrace initState [Ev.register (fun _ => true)]).1).gen = 1 ∧
    (connect_to_outbound_processor (runTrace initState [Ev.register (fun _ => true)]).1
      (fun _ => false)).attempts = 0 :=
  register_idempotent (fun _ => true) (fun _ => false) (by decide)

/-! ## Framed-channel lemmas -/

theorem takeN_append_exact (a b : List Nat) {n : Nat} (h : a.length = n) :
    takeN n (a ++ b) = some (a, b) := by
  subst h
  simp [takeN, List.take_left, List.drop_left]

theorem beU32_beBytes {n : Nat} (h : n < 4294967296) : beU32 (beBytes n) = n := by
  simp [beU32, beBytes]
  omega

/-- A frame whose 4-byte prefix is `0xFFFFFFFF` ends the loop at once:
no payload bytes are consumed, nothing is synthesized or emitted and the
session state is untouched. -/
theorem textLoop_sentinel (synth : List Nat → Option (List Int))
    (decodeOk : List Nat → Bool) (rest : List Nat)
    (script : List (Bool × (Nat → Bool) × Bool)) (st : CallState) :
    textLoop synth decodeOk (255 :: 255 :: 255 :: 255 :: rest) script st =
      ⟨.bye, [], st, []⟩ := by
  have h4 : takeN 4 (255 :: 255 :: 255 :: 255 :: rest) =
      some ([255, 255, 255, 255], rest) :=
    takeN_append_exact [255, 255, 255, 255] rest rfl
  rw [textLoop]
  rw [h4]
  norm_num [beU32, SENTINEL]

/-- Processing one well-formed text frame whose synthesis yields no audio
(`None`, covering both a synthesis error and an empty pipeline): the text is
consumed and the loop continues on the rest of the stream with the relay
state untouched. -/
theorem textLoop_frame_none (synth : List Nat → Option (List Int))
    (decodeOk : List Nat → Bool) (p rest : List Nat)
    (script : List (Bool × (Nat → Bool) × Bool)) (st : CallState)
    (h1 : 1 ≤ p.length) (h2 : p.length ≤ MAX_TEXT) (hd : decodeOk p = true)
    (hs : synth p = none) :
    textLoop synth decodeOk (encodeFrame p ++ rest) script st =
      ⟨(textLoop synth decodeOk rest script st).exit,
       p :: (textLoop synth decodeOk rest script st).texts,
       (textLoop synth decodeOk rest script st).st,
       (textLoop synth decodeOk rest script st).emitted⟩ := by
  have hM : p.length < 4294967296 := by
    have := h2; simp only [MAX_TEXT] at this; omega
  have h4 : takeN 4 (encodeFrame p ++ rest) = some (beBytes p.length, p ++ rest) := by
    have e : encodeFrame p ++ rest = beBytes p.length ++ (p ++ rest) := by
      simp [encodeFrame]
    rw [e]
    exact takeN_append_exact _ _ rfl
  have hL : beU32 (beBytes p.length) = p.length := beU32_beBytes hM
  have hpq : takeN p.length (p ++ rest) = some (p, rest) := takeN_append_exact _ _ rfl
  have hsen : p.length ≠ SENTINEL := by
    have := h2; simp only [MAX_TEXT] at this; simp only [SENTINEL]; omega
  have hsz : ¬(p.length = 0 ∨ MAX_TEXT < p.length) := by
    push_neg
    exact ⟨by omega, h2⟩
  rw [textLoop]
  rw [h4]
  simp only [hL]
  rw [if_neg hsen, if_neg hsz]
  split
  · rename_i heq
    rw [hL, hpq] at heq
    simp at heq
  · rename_i payload rest2 heq
    rw [hL, hpq] at heq
    simp only [Option.some.injEq, Prod.mk.injEq] at heq
    obtain ⟨hp1, hp2⟩ := heq
    subst hp1
    subst hp2
    simp [hd, hs]

/-- Processing one well-formed text frame whose synthesis yields an empty
buffer (`len(audio) == 0`): treated exactly like no audio. -/
theorem textLoop_frame_empty (synth : List Nat → Option (List Int))
    (decodeOk : List Nat → Bool) (p rest : List Nat)
    (script : List (Bool × (Nat → Bool) × Bool)) (st : CallState)
    (audio : List Int)
    (h1 : 1 ≤ p.length) (h2 : p.length ≤ MAX_TEXT) (hd : decodeOk p = true)
    (hs : synth p = some audio) (he : audio.isEmpty = true) :
    textLoop synth decodeOk (encodeFrame p ++ rest) script st =
      ⟨(textLoop synth decodeOk rest script st).exit,
       p :: (textLoop synth decodeOk rest script st).texts,
       (textLoop synth decodeOk rest script st).st,
       (textLoop synth decodeOk rest script st).emitted⟩ := by
  have hM : p.length < 4294967296 := by
    have := h2; simp only [MAX_TEXT] at this; omega
  have h4 : takeN 4 (encodeFrame p ++ rest) = some (beBytes p.length, p ++ rest) := by
    have e : encodeFrame p ++ rest = beBytes p.length ++ (p ++ rest) := by
      simp [encodeFrame]
    rw [e]
    exact takeN_append_exact _ _ rfl
  have hL : beU32 (beBytes p.length) = p.length := beU32_beBytes hM
  have hpq : takeN p.length (p ++ rest) = some (p, rest) := takeN_append_exact _ _ rfl
  have hsen : p.length ≠ SENTINEL := by
    have := h2; simp only [MAX_TEXT] at this; simp only [SENTINEL]; omega
  have hsz : ¬(p.length = 0 ∨ MAX_TEXT < p.length) := by
    push_neg
    exact ⟨by omega, h2⟩
  rw [textLoop]
  rw [h4]
  simp only [hL]
  rw [if_neg hsen, if_neg hsz]
  split
  · rename_i heq
    rw [hL, hpq] at heq
    simp at heq
  · rename_i payload rest2 heq
    rw [hL, hpq] at heq
    simp only [Option.some.injEq, Prod.mk.injEq] at heq
    obtain ⟨hp1, hp2⟩ := heq
    subst hp1
    subst hp2
    simp [hd, hs, he]

/-- Processing one well-formed text frame whose synthesis yields non-empty
audio: the buffer is relayed with the next scripted I/O outcomes and the
loop continues on the rest of the stream from the relay's resulting
state — whatever the relay outcome, the loop is not left. -/
theorem textLoop_frame_audio (synth : List Nat → Option (List Int))
    (decodeOk : List Nat → Bool) (p rest : List Nat)
    (script : List (Bool × (Nat → Bool) × Bool)) (st : CallState)
    (audio : List Int)
    (h1 : 1 ≤ p.length) (h2 : p.length ≤ MAX_TEXT) (hd : decodeOk p = true)
    (hs : synth p = some audio) (he : audio.isEmpty = false) :
    textLoop synth decodeOk (encodeFrame p ++ rest) script st =
      ⟨(textLoop synth decodeOk rest script.tail
          (relayAudio st (script.headD (true, fun _ => true, true)).1
            (script.headD (true, fun _ => true, true)).2.1
            (script.headD (true, fun _ => true, true)).2.2).st).exit,
       p :: (textLoop synth decodeOk rest script.tail
          (relayAudio st (script.headD (true, fun _ => true, true)).1
            (script.headD (true, fun _ => true, true)).2.1
            (script.headD (true, fun _ => true, true)).2.2).st).texts,
       (textLoop synth decodeOk rest script.tail
          (relayAudio st (script.headD (true, fun _ => true, true)).1
            (script.headD (true, fun _ => true, true)).2.1
            (script.headD (true, fun _ => true, true)).2.2).st).st,
       (relayAudio st (script.headD (true, fun _ => true, true)).1
            (script.headD (true, fun _ => true, true)).2.1
            (script.headD (true, fun _ => true, true)).2.2).emitted ++
         (textLoop synth decodeOk rest script.tail
          (relayAudio st (script.headD (true, fun _ => true, true)).1
            (script.headD (true, fun _ => true, true)).2.1
            (script.headD (true, fun _ => true, true)).2.2).st).emitted⟩ := by
  have hM : p.length < 4294967296 := by
    have := h2; simp only [MAX_TEXT] at this; omega
  have h4 : takeN 4 (encodeFrame p ++ rest) = some (beBytes p.length, p ++ rest) := by
    have e : encodeFrame p ++ rest = beBytes p.length ++ (p ++ rest) := by
      simp [encodeFrame]
    rw [e]
    exact takeN_append_exact _ _ rfl
  have hL : beU32 (beBytes p.length) = p.length := beU32_beBytes hM
  have hpq : takeN p.length (p ++ rest) = some (p, rest) := takeN_append_exact _ _ rfl
  have hsen : p.length ≠ SENTINEL := by
    have := h2; simp only [MAX_TEXT] at this; simp only [SENTINEL]; omega
  have hsz : ¬(p.length = 0 ∨ MAX_TEXT < p.length) := by
    push_neg
    exact ⟨by omega, h2⟩
  rw [textLoop]
  rw [h4]
  simp only [hL]
  rw [if_neg hsen, if_neg hsz]
  split
  · rename_i heq
    rw [hL, hpq] at heq
    simp at heq
  · rename_i payload rest2 heq
    rw [hL, hpq] at heq
    simp only [Option.some.injEq, Prod.mk.injEq] at heq
    obtain ⟨hp1, hp2⟩ := heq
    subst hp1
    subst hp2
    simp [hd, hs, he]

/-- C6: a frame whose 4-byte length prefix is `0xFFFFFFFF` is the
end-of-call sentinel at every position of the inbound text-frame stream:
as the very first frame the handler leaves the loop normally having
synthesized nothing (first conjunct), and after any number of well-formed
text frames the loop still exits with `bye`, having synthesized exactly
the preceding frames' payloads in order (remaining conjuncts). -/
theorem sentinel_end_of_call (synth : List Nat → Option (List Int))
    (decodeOk : List Nat → Bool) (texts : List (List Nat)) (junk : List Nat)
    (script : List (Bool × (Nat → Bool) × Bool)) (st : CallState)
    (h : ∀ p ∈ texts, 1 ≤ p.length ∧ p.length ≤ MAX_TEXT ∧ decodeOk p = true) :
    textLoop synth decodeOk (255 :: 255 :: 255 :: 255 :: junk) script st =
      ⟨.bye, [], st, []⟩ ∧
    (textLoop synth decodeOk (encodeFrames texts ++ 255 :: 255 :: 255 :: 255 :: junk)
        script st).exit = .bye ∧
    (textLoop synth decodeOk (encodeFrames texts ++ 255 :: 255 :: 255 :: 255 :: junk)
        script st).texts = texts := by
  refine ⟨textLoop_sentinel synth decodeOk junk script st, ?_⟩
  induction texts generalizing script st with
  | nil =>
    simp only [encodeFrames, List.map_nil, List.flatten_nil, List.nil_append]
    rw [textLoop_sentinel synth decodeOk junk script st]
    exact ⟨rfl, rfl⟩
  | cons p ts ih =>
    obtain ⟨h1, h2, hd⟩ := h p (List.mem_cons_self p ts)
    have htail : ∀ q ∈ ts, 1 ≤ q.length ∧ q.length ≤ MAX_TEXT ∧ decodeOk q = true :=
      fun q hq => h q (List.mem_cons_of_mem p hq)
    have hsplit : encodeFrames (p :: ts) ++ 255 :: 255 :: 255 :: 255 :: junk =
        encodeFrame p ++ (encodeFrames ts ++ 255 :: 255 :: 255 :: 255 :: junk) := by
      simp [encodeFrames]
    rw [hsplit]
    rcases hsp : synth p with _ | audio
    · rw [textLoop_frame_none synth decodeOk p _ script st h1 h2 hd hsp]
      obtain ⟨e1, e2⟩ := ih script st htail
      exact ⟨e1, by simp [e2]⟩
    · rcases he : audio.isEmpty with hf | ht
      · rw [textLoop_frame_audio synth decodeOk p _ script st audio h1 h2 hd hsp he]
        obtain ⟨e1, e2⟩ := ih script.tail
          (relayAudio st (script.headD (true, fun _ => true, true)).1
            (script.headD (true, fun _ => true, true)).2.1
            (script.headD (true, fun _ => true, true)).2.2).st htail
        refine ⟨by simpa using e1, ?_⟩
        simp only [List.headD_eq_head?_getD] at e2
        simpa using e2
      · rw [textLoop_frame_empty synth decodeOk p _ script st audio h1 h2 hd hsp he]
        obtain ⟨e1, e2⟩ := ih script st htail
        exact ⟨by simpa using e1, by simpa using e2⟩

/-- Witness for `sentinel_end_of_call`: one well-formed frame before the
sentinel, and the sentinel first. -/
theorem sentinel_end_of_call_witness :
    textLoop (fun _ => none) (fun _ => true) (255 :: 255 :: 255 :: 255 :: [9]) []
      initState = ⟨.bye, [], initState, []⟩ ∧
    (textLoop (fun _ => none) (fun _ => true)
        (encodeFrames [[65]] ++ 255 :: 255 :: 255 :: 255 :: [9]) [] initState).exit
      = .bye ∧
    (textLoop (fun _ => none) (fun _ => true)
        (encodeFrames [[65]] ++ 255 :: 255 :: 255 :: 255 :: [9]) [] initState).texts
      = [[65]] :=
  sentinel_end_of_call (fun _ => none) (fun _ => true) [[65]] [9] [] initState
    (by intro p hp; simp at hp; subst hp; refine ⟨by decide, by decide, rfl⟩)

/-- C8 (amended): the synthesis wrapper returns the identical `(None, 0)`
for a pipeline failure and for zero audio produced — failure is not
reported distinctly — and the handler treats both as zero audio for that
text chunk: the loop continues on the remaining stream, the call is not
terminated, and nothing is emitted for that chunk. -/
theorem synthesize_failure_handling (chunks : List (Option (List Int)))
    (synth : List Nat → Option (List Int)) (decodeOk : List Nat → Bool)
    (p rest : List Nat) (script : List (Bool × (Nat → Bool) × Bool))
    (st : CallState)
    (hc : chunks.filterMap id = [])
    (h1 : 1 ≤ p.length) (h2 : p.length ≤ MAX_TEXT) (hd : decodeOk p = true)
    (hs : synth p = none) :
    synthesize true chunks = (none, 0) ∧
    synthesize false chunks = (none, 0) ∧
    textLoop synth decodeOk (encodeFrame p ++ rest) script st =
      ⟨(textLoop synth decodeOk rest script st).exit,
       p :: (textLoop synth decodeOk rest script st).texts,
       (textLoop synth decodeOk rest script st).st,
       (textLoop synth decodeOk rest script st).emitted⟩ := by
  refine ⟨by simp [synthesize], by simp [synthesize, hc], ?_⟩
  exact textLoop_frame_none synth decodeOk p rest script st h1 h2 hd hs

/-- Witness for `synthesize_failure_handling` on a concrete stream. -/
theorem synthesize_failure_handling_witness :
    synthesize true [none] = (none, 0) ∧
    synthesize false [none] = (none, 0) ∧
    textLoop (fun _ => none) (fun _ => true) (encodeFrame [65] ++ [7]) [] initState =
      ⟨(textLoop (fun _ => none) (fun _ => true) [7] [] initState).exit,
       [65] :: (textLoop (fun _ => none) (fun _ => true) [7] [] initState).texts,
       (textLoop (fun _ => none) (fun _ => true) [7] [] initState).st,
       (textLoop (fun _ => none) (fun _ => true) [7] [] initState).emitted⟩ :=
  synthesize_failure_handling [none] (fun _ => none) (fun _ => true) [65] [7] []
    initState (by decide) (by decide) (by decide) rfl rfl

/-- C9 (amended): for audio synthesized while the call has no outbound
connection, the handler performs exactly one reconnect attempt through the
bounded dial schedule (blocking for its sleeps, 6000 ms if the peer never
appears); only if the dial fails is the audio dropped — if the dial
succeeds the audio is sent after all with chunk id 1 — and in either case
the loop then proceeds to the next text frame. -/
theorem relay_without_connection (st : CallState) (ok1 ok2 : Bool)
    (dialOk : Nat → Bool) (h : st.connected = false) :
    (relayAudio st ok1 dialOk ok2).connectCalls = 1 ∧
    ((dialLoop dialOk 1 10).1 = none →
       relayAudio st ok1 dialOk ok2 = ⟨st, [], 1, 1, false, 6000⟩) ∧
    (∀ k, (dialLoop dialOk 1 10).1 = some k →
       (relayAudio st ok1 dialOk ok2).delivered = ok2 ∧
       (relayAudio st ok1 dialOk ok2).emitted =
         (if ok2 then [(st.gen + 1, 1)] else []) ∧
       (relayAudio st ok1 dialOk ok2).elapsedMs = (dialLoop dialOk 1 10).2.2) ∧
    (∀ synth decodeOk (p rest : List Nat) script (audio : List Int),
       1 ≤ p.length → p.length ≤ MAX_TEXT → decodeOk p = true →
       synth p = some audio → audio.isEmpty = false →
       (textLoop synth decodeOk (encodeFrame p ++ rest)
           ((ok1, dialOk, ok2) :: script) st).exit =
         (textLoop synth decodeOk rest script
           (relayAudio st ok1 dialOk ok2).st).exit) := by
  have hsend : send_audio_to_outbound st ok1 = ⟨st, false, []⟩ := by
    simp [send_audio_to_outbound, h]
  refine ⟨?_, ?_, ?_, ?_⟩
  · simp only [relayAudio, hsend]
    rcases hdl : dialLoop dialOk 1 10 with ⟨res, n, t⟩
    rcases res with _ | k <;>
      simp [connect_to_outbound_processor, h, hdl, send_audio_to_outbound]
  · intro hnone
    obtain ⟨ha, he⟩ := dialLoop_none dialOk 10 1 hnone
    rcases hdl : dialLoop dialOk 1 10 with ⟨res, n, t⟩
    rw [hdl] at hnone ha he
    simp at hnone ha he
    subst hnone
    subst ha
    subst he
    have hsum : ((List.range' 1 10).map sleepAfter).sum = 6000 := by decide
    simp [relayAudio, hsend, connect_to_outbound_processor, h, hdl, hsum]
  · intro k hk
    rcases hdl : dialLoop dialOk 1 10 with ⟨res, n, t⟩
    rw [hdl] at hk
    simp at hk
    subst hk
    rcases ok2 with _ | _ <;>
      simp [relayAudio, hsend, connect_to_outbound_processor, h, hdl,
        send_audio_to_outbound]
  · intro synth decodeOk p rest script audio h1 h2 hdec hsp he
    rw [textLoop_frame_audio synth decodeOk p rest ((ok1, dialOk, ok2) :: script) st
      audio h1 h2 hdec hsp he]
    simp

/-- Witness for `relay_without_connection` with an unconnected session. -/
theorem relay_without_connection_witness :
    (relayAudio initState true (fun _ => false) true).connectCalls = 1 ∧
    relayAudio initState true (fun _ => false) true = ⟨initState, [], 1, 1, false, 6000⟩ ∧
    (textLoop (fun _ => some [5]) (fun _ => true) (encodeFrame [66] ++ [3])
        ((true, fun _ => false, true) :: []) initState).exit =
      (textLoop (fun _ => some [5]) (fun _ => true) [3] []
        (relayAudio initState true (fun _ => false) true).st).exit := by
  have h := relay_without_connection initState true true (fun _ => false) rfl
  exact ⟨h.1, h.2.1 (by decide),
    h.2.2.2 (fun _ => some [5]) (fun _ => true) [66] [3] [] [5]
      (by decide) (by decide) rfl rfl (by decide)⟩

/-- C4: on a mid-stream outbound write failure the socket is evicted from
the registry before `send_audio_to_outbound` returns (no silent mid-send
retry and the failure is reported), the handler then makes exactly one
reconnect attempt and at most one resend of the frame in flight, a frame
that is still undelivered is dropped (nothing emitted), and the inbound
loop continues with the next frame regardless. -/
theorem outbound_send_failure_handling (st : CallState) (dialOk : Nat → Bool)
    (ok2 : Bool) (h : st.connected = true) :
    (send_audio_to_outbound st false).st.connected = false ∧
    (send_audio_to_outbound st false).ok = false ∧
    (send_audio_to_outbound st false).emitted = [] ∧
    (relayAudio st false dialOk ok2).connectCalls = 1 ∧
    (relayAudio st false dialOk ok2).sendCalls ≤ 2 ∧
    ((relayAudio st false dialOk ok2).delivered = false →
       (relayAudio st false dialOk ok2).emitted = []) ∧
    (∀ synth decodeOk (p rest : List Nat) script (audio : List Int),
       1 ≤ p.length → p.length ≤ MAX_TEXT → decodeOk p = true →
       synth p = some audio → audio.isEmpty = false →
       (textLoop synth decodeOk (encodeFrame p ++ rest)
           ((false, dialOk, ok2) :: script) st).exit =
         (textLoop synth decodeOk rest script
           (relayAudio st false dialOk ok2).st).exit) := by
  have hsend : send_audio_to_outbound st false =
      ⟨{ st with ctr := st.ctr + 1, connected := false }, false, []⟩ := by
    simp [send_audio_to_outbound, h]
  refine ⟨by rw [hsend], by rw [hsend], by rw [hsend], ?_, ?_, ?_, ?_⟩
  · simp only [relayAudio, hsend]
    rcases hdl : dialLoop dialOk 1 10 with ⟨res, n, t⟩
    rcases res with _ | k <;>
      simp [connect_to_outbound_processor, hdl, send_audio_to_outbound]
  · simp only [relayAudio, hsend]
    rcases hdl : dialLoop dialOk 1 10 with ⟨res, n, t⟩
    rcases res with _ | k <;>
      simp [connect_to_outbound_processor, hdl, send_audio_to_outbound]
  · simp only [relayAudio, hsend]
    rcases hdl : dialLoop dialOk 1 10 with ⟨res, n, t⟩
    rcases res with _ | k
    · simp [connect_to_outbound_processor, hdl]
    · rcases ok2 with _ | _ <;>
        simp [connect_to_outbound_processor, hdl, send_audio_to_outbound]
  · intro synth decodeOk p rest script audio h1 h2 hdec hsp he
    rw [textLoop_frame_audio synth decodeOk p rest ((false, dialOk, ok2) :: script) st
      audio h1 h2 hdec hsp he]
    simp

/-- Witness for `outbound_send_failure_handling` from a connected state. -/
theorem outbound_send_failure_handling_witness :
    (send_audio_to_outbound ⟨true, true, 3, 1⟩ false).st.connected = false ∧
    (relayAudio ⟨true, true, 3, 1⟩ false (fun _ => false) true).connectCalls = 1 ∧
    (relayAudio ⟨true, true, 3, 1⟩ false (fun _ => false) true).sendCalls ≤ 2 ∧
    (relayAudio ⟨true, true, 3, 1⟩ false (fun _ => false) true).emitted = [] ∧
    (textLoop (fun _ => some [5]) (fun _ => true) (encodeFrame [66] ++ [3])
        ((false, fun _ => false, true) :: []) ⟨true, true, 3, 1⟩).exit =
      (textLoop (fun _ => some [5]) (fun _ => true) [3] []
        (relayAudio ⟨true, true, 3, 1⟩ false (fun _ => false) true).st).exit := by
  have h := outbound_send_failure_handling ⟨true, true, 3, 1⟩ (fun _ => false) true rfl
  exact ⟨h.1, h.2.2.2.1, h.2.2.2.2.1, h.2.2.2.2.2.1 (by decide),
    h.2.2.2.2.2.2 (fun _ => some [5]) (fun _ => true) [66] [3] [] [5]
      (by decide) (by decide) rfl rfl (by decide)⟩

/-! ## Audio Streaming Splitter lemmas -/

theorem splitAudio_flatten {α : Type} (l : List α) : (splitAudio l).flatten = l := by
  induction l using splitAudio.induct with
  | case1 => simp [splitAudio]
  | case2 x xs ih =>
    rw [splitAudio]
    simp only [List.flatten_cons, ih]
    exact List.take_append_drop _ _

theorem sendSplit_snd {α : Type} (c0 : Nat) (l : List α) :
    (sendSplit c0 l).map Prod.snd = splitAudio l := by
  induction c0, l using sendSplit.induct with
  | case1 c0 => simp [sendSplit, splitAudio]
  | case2 c0 x xs ih =>
    rw [sendSplit, splitAudio]
    simp [ih]

theorem sendSplit_fst {α : Type} (c0 : Nat) (l : List α) :
    (sendSplit c0 l).map Prod.fst = List.range' (c0 + 1) (sendSplit c0 l).length := by
  induction c0, l using sendSplit.induct with
  | case1 c0 => simp [sendSplit]
  | case2 c0 x xs ih =>
    rw [sendSplit]
    simp only [List.map_cons, List.length_cons, ih, List.range'_succ]

theorem splitAudio_getD {α : Type} (l : List α) (i : Nat) :
    (splitAudio l).getD i ([] : List α) =
      (l.drop (subchunkSize * i)).take subchunkSize := by
  induction l using splitAudio.induct generalizing i with
  | case1 => simp [splitAudio]
  | case2 x xs ih =>
    rw [splitAudio]
    cases i with
    | zero => simp
    | succ j =>
      rw [List.getD_cons_succ, ih j, List.drop_drop]
      congr 2
      ring

theorem splitAudio_ne_nil {α : Type} (l : List α) : ∀ f ∈ splitAudio l, f ≠ [] := by
  induction l using splitAudio.induct with
  | case1 => simp [splitAudio]
  | case2 x xs ih =>
    intro f hf
    rw [splitAudio] at hf
    rcases List.mem_cons.mp hf with rfl | hf'
    · simp [List.take_eq_nil_iff, subchunkSize]
    · exact ih f hf'

theorem sendSplit_small : sendSplit 0 ([7, 8] : List Int) = [(1, [7, 8])] := by
  rw [sendSplit]
  have h1 : List.take subchunkSize ([7, 8] : List Int) = [7, 8] := by decide
  have h2 : List.drop subchunkSize ([7, 8] : List Int) = [] := by decide
  rw [h1, h2, sendSplit]

/-- C2: the splitter slices a synthesized buffer into consecutive
960-sample (`24000 * 0.04`) windows — window `i` is exactly
`l[960*i : 960*(i+1)]`, so the partial final window is emitted unpadded
and nothing is dropped or invented — pairs them with consecutive chunk ids
`c0+1, c0+2, ...` in emission order, and concatenating the frames in
chunk-id order reproduces the original buffer bit-for-bit. -/
theorem audio_splitter_roundtrip {α : Type} (c0 : Nat) (l : List α) :
    ((sendSplit c0 l).map Prod.snd).flatten = l ∧
    (sendSplit c0 l).map Prod.fst = List.range' (c0 + 1) (sendSplit c0 l).length ∧
    (∀ i, ((sendSplit c0 l).map Prod.snd).getD i [] =
      (l.drop (subchunkSize * i)).take subchunkSize) ∧
    (∀ f ∈ (sendSplit c0 l).map Prod.snd, f ≠ []) ∧
    subchunkSize = 960 := by
  rw [sendSplit_snd]
  exact ⟨splitAudio_flatten l, sendSplit_fst c0 l, fun i => splitAudio_getD l i,
    splitAudio_ne_nil l, rfl⟩

/-- Witness for `audio_splitter_roundtrip` on a concrete two-sample
buffer. -/
theorem audio_splitter_roundtrip_witness :
    ((sendSplit 0 ([7, 8] : List Int)).map Prod.snd).flatten = [7, 8] ∧
    ((sendSplit 0 ([7, 8] : List Int)).map Prod.snd).getD 0 [] =
      (([7, 8] : List Int).drop (subchunkSize * 0)).take subchunkSize ∧
    ([7, 8] : List Int) ≠ [] ∧
    subchunkSize = 960 := by
  have h := audio_splitter_roundtrip 0 ([7, 8] : List Int)
  refine ⟨h.1, h.2.2.1 0, h.2.2.2.1 [7, 8] ?_, h.2.2.2.2⟩
  rw [sendSplit_small]
  simp

/-! ## `_recv_exact` lemmas -/

theorem recvExact_zero (data sizes : List Nat) :
    recvExact 0 data sizes = some ([], data, sizes) := by
  rw [recvExact.eq_def]
  simp

theorem recvExact_nil {n : Nat} (h : n ≠ 0) (sizes : List Nat) :
    recvExact n [] sizes = none := by
  rw [recvExact.eq_def]
  simp [h]

theorem recvExact_cons {n : Nat} (h : n ≠ 0) (d : Nat) (ds sizes : List Nat) :
    recvExact n (d :: ds) sizes =
      match recvExact (n - ((d :: ds).take (min n (max 1 (sizes.headD n)))).length)
          ((d :: ds).drop ((d :: ds).take (min n (max 1 (sizes.headD n)))).length)
          sizes.tail with
      | none => none
      | some (restBytes, data', sizes') =>
        some ((d :: ds).take (min n (max 1 (sizes.headD n))) ++ restBytes, data', sizes') := by
  rw [recvExact.eq_def]
  simp [h]

theorem recv_exact_contract : ∀ (n : Nat) (data sizes : List Nat),
    (n ≤ data.length →
      ∃ sz, recvExact n data sizes = some (data.take n, data.drop n, sz)) ∧
    (data.length < n → recvExact n data sizes = none) := by
  intro n
  induction n using Nat.strong_induction_on with
  | _ n ihn =>
    intro data sizes
    by_cases h0 : n = 0
    · subst h0
      exact ⟨fun _ => ⟨sizes, recvExact_zero data sizes⟩, fun h => absurd h (by omega)⟩
    · cases data with
      | nil =>
        exact ⟨fun hn => absurd (Nat.le_zero.mp (by simpa using hn)) h0,
          fun _ => recvExact_nil h0 sizes⟩
      | cons d ds =>
        set c := min n (max 1 (sizes.headD n)) with hcdef
        set t := ((d :: ds).take c).length with htdef
        have hc1 : 1 ≤ c := by omega
        have ht : t = min c (ds.length + 1) := by
          simp [htdef, List.length_take]
        have ht1 : 1 ≤ t := by omega
        have htle : t ≤ n := by omega
        have htlen : t ≤ ds.length + 1 := by omega
        obtain ⟨ihn1, ihn2⟩ := ihn (n - t) (by omega) ((d :: ds).drop t) sizes.tail
        constructor
        · intro hn
          simp only [List.length_cons] at hn
          obtain ⟨sz, hsz⟩ := ihn1 (by simp [List.length_drop]; omega)
          refine ⟨sz, ?_⟩
          rw [recvExact_cons h0, ← htdef, hsz]
          have e1 : (d :: ds).take c ++ ((d :: ds).drop t).take (n - t) =
              (d :: ds).take n := by
            have hce : (d :: ds).take c = (d :: ds).take t := by
              rw [List.take_eq_take]
              simp only [List.length_cons]
              omega
            rw [hce, ← List.take_add]
            congr 1
            omega
          have e2 : ((d :: ds).drop t).drop (n - t) = (d :: ds).drop n := by
            rw [List.drop_drop]
            congr 1
            omega
          simp only [e1, e2]
        · intro hlt
          simp only [List.length_cons] at hlt
          rw [recvExact_cons h0, ← htdef,
            ihn2 (by simp [List.length_drop]; omega)]

/-- C7 counterexample: the registry variant reads each frame field with a
single `recv` (`recvOnce`), which legitimately returns only 2 of the 4
declared bytes even though all of them are pending (5 bytes buffered);
`handle_client`'s `len(...) != 4` check then aborts the connection.  Over
the same chunking, `_recv_exact` completes the read — so not every framed
read blocks until the declared length arrives. -/
theorem recv_plain_short_read_cex :
    recvOnce 4 [0, 0, 0, 1, 65] 2 = [0, 0] ∧
    (recvOnce 4 [0, 0, 0, 1, 65] 2).length ≠ 4 ∧
    4 ≤ ([0, 0, 0, 1, 65] : List Nat).length ∧
    recvExact 4 [0, 0, 0, 1, 65] [2] = some ([0, 0, 0, 1], [65], []) := by
  refine ⟨by decide, by decide, by decide, ?_⟩
  rw [recvExact_cons (by omega) 0 [0, 0, 1, 65] [2]]
  norm_num
  rw [recvExact_cons (by omega) 0 [1, 65] []]
  norm_num
  rw [recvExact_zero]

/-- C7 (amended): the bin variant's `_recv_exact` returns the complete
payload of exactly the declared length — the first `n` bytes of the
stream, however the kernel chunks them — and reports a peer close before
`n` bytes as a disconnect (`None`), never a truncated payload treated as
complete; the registry variant instead reads with one bare `recv` per
field and aborts the connection on any short read. -/
theorem recv_framed_contract (n : Nat) (data sizes : List Nat) :
    (n ≤ data.length →
      ∃ sz, recvExact n data sizes = some (data.take n, data.drop n, sz)) ∧
    (data.length < n → recvExact n data sizes = none) ∧
    (recvOnce 4 [0, 0, 0, 1, 65] 2 = [0, 0] ∧
      (recvOnce 4 [0, 0, 0, 1, 65] 2).length ≠ 4) :=
  ⟨(recv_exact_contract n data sizes).1, (recv_exact_contract n data sizes).2,
    by decide, by decide⟩

/-- Witness for `recv_framed_contract` at a concrete stream and a concrete
short stream. -/
theorem recv_framed_contract_witness :
    (∃ sz, recvExact 4 [0, 0, 0, 1, 65] [2] = some ([0, 0, 0, 1], [65], sz)) ∧
    recvExact 4 [0, 0] [1] = none :=
  ⟨(recv_framed_contract 4 [0, 0, 0, 1, 65] [2]).1 (by decide),
    (recv_framed_contract 4 [0, 0] [1]).2.1 (by decide)⟩

/-! ## Chunk-sequence invariant (C1) -/

theorem emittedFor_single_eq (g c : Nat) : emittedFor g [(g, c)] = [c] := by
  simp [emittedFor]

theorem emittedFor_single_ne {g g' : Nat} (c : Nat) (h : g' ≠ g) :
    emittedFor g [(g', c)] = [] := by
  simp [emittedFor, h]

/-- Invariant of the per-call trace semantics: the chunk ids emitted on any
single outbound connection (generation `g`) form a contiguous run
`ctr+1, ctr+2, ...` continuing the current counter if `g` is the live
connection, a run `1, 2, ...` if `g` is a future connection, and nothing
if `g` is already dead. -/
theorem runTrace_inv (evs : List Ev) : ∀ st : CallState,
    (∀ g, g < st.gen → emittedFor g (runTrace st evs).2 = []) ∧
    (st.connected = false → emittedFor st.gen (runTrace st evs).2 = []) ∧
    (st.connected = true →
      ∃ m, emittedFor st.gen (runTrace st evs).2 = List.range' (st.ctr + 1) m) ∧
    (∀ g, st.gen < g → ∃ m, emittedFor g (runTrace st evs).2 = List.range' 1 m) := by
  induction evs with
  | nil =>
    exact fun st => ⟨fun g _ => rfl, fun _ => rfl, fun _ => ⟨0, rfl⟩, fun g _ => ⟨0, rfl⟩⟩
  | cons e evs ih =>
    intro st
    have hrun : (runTrace st (e :: evs)).2 =
        (stepEv st e).2 ++ (runTrace (stepEv st e).1 evs).2 := rfl
    rw [hrun]
    cases e with
    | register dialOk =>
      by_cases hc : st.connected = true
      · have hstep : stepEv st (Ev.register dialOk) = ({ st with registered := true }, []) := by
          simp [stepEv, connect_to_outbound_processor, hc]
        rw [hstep]
        obtain ⟨i1, i2, i3, i4⟩ := ih { st with registered := true }
        exact ⟨fun g hg => by simpa using i1 g hg,
          fun h => absurd h (by simp [hc]),
          fun _ => by simpa using i3 (by simp [hc]),
          fun g hg => by simpa using i4 g hg⟩
      · simp only [Bool.not_eq_true] at hc
        rcases hdl : dialLoop dialOk 1 10 with ⟨res, n, t⟩
        rcases res with _ | k
        · have hstep : stepEv st (Ev.register dialOk) = ({ st with registered := true }, []) := by
            simp [stepEv, connect_to_outbound_processor, hc, hdl]
          rw [hstep]
          obtain ⟨i1, i2, i3, i4⟩ := ih { st with registered := true }
          exact ⟨fun g hg => by simpa using i1 g hg,
            fun _ => by simpa using i2 (by simp [hc]),
            fun h => absurd h (by simp [hc]),
            fun g hg => by simpa using i4 g hg⟩
        · have hstep : stepEv st (Ev.register dialOk) =
              ({ registered := true, connected := true, ctr := 0, gen := st.gen + 1 }, []) := by
            simp [stepEv, connect_to_outbound_processor, hc, hdl]
          rw [hstep]
          obtain ⟨i1, i2, i3, i4⟩ := ih
            { registered := true, connected := true, ctr := 0, gen := st.gen + 1 }
          refine ⟨fun g hg => by simpa using i1 g (by simpa using Nat.lt_succ_of_lt hg),
            fun _ => by simpa using i1 st.gen (by simp),
            fun h => absurd h (by simp [hc]),
            fun g hg => ?_⟩
          by_cases hg1 : g = st.gen + 1
          · subst hg1
            simpa using i3 rfl
          · have : st.gen + 1 < g := by omega
            simpa using i4 g (by simpa using this)
    | bye =>
      have hstep : stepEv st Ev.bye =
          ({ st with registered := false, connected := false }, []) := by
        simp [stepEv, close_outbound_connection]
      rw [hstep]
      obtain ⟨i1, i2, i3, i4⟩ := ih { st with registered := false, connected := false }
      exact ⟨fun g hg => by simpa using i1 g hg,
        fun _ => by simpa using i2 rfl,
        fun _ => ⟨0, by simpa using i2 rfl⟩,
        fun g hg => by simpa using i4 g hg⟩
    | audio a d b =>
      by_cases hc : st.connected = true
      · rcases a with _ | _
        · rcases hdl : dialLoop d 1 10 with ⟨res, n, t⟩
          rcases res with _ | k
          · have hstep : stepEv st (Ev.audio false d b) =
                ({ st with ctr := st.ctr + 1, connected := false }, []) := by
              simp [stepEv, relayAudio, send_audio_to_outbound, hc,
                connect_to_outbound_processor, hdl]
            rw [hstep]
            obtain ⟨i1, i2, i3, i4⟩ := ih { st with ctr := st.ctr + 1, connected := false }
            exact ⟨fun g hg => by simpa using i1 g hg,
              fun h => by simp [h] at hc,
              fun _ => ⟨0, by simpa using i2 (by simp)⟩,
              fun g hg => by simpa using i4 g hg⟩
          · rcases b with _ | _
            · have hstep : stepEv st (Ev.audio false d false) =
                  ({ st with connected := false, ctr := 1, gen := st.gen + 1 }, []) := by
                simp [stepEv, relayAudio, send_audio_to_outbound, hc,
                  connect_to_outbound_processor, hdl]
              rw [hstep]
              obtain ⟨i1, i2, i3, i4⟩ :=
                ih { st with connected := false, ctr := 1, gen := st.gen + 1 }
              refine ⟨fun g hg => by simpa using i1 g (by simp; omega),
                fun h => by simp [h] at hc,
                fun _ => ⟨0, by simpa using i1 st.gen (by simp)⟩,
                fun g hg => ?_⟩
              by_cases hg1 : g = st.gen + 1
              · subst hg1
                exact ⟨0, by simpa using i2 (by simp)⟩
              · simpa using i4 g (by simp; omega)
            · have hstep : stepEv st (Ev.audio false d true) =
                  ({ st with connected := true, ctr := 1, gen := st.gen + 1 },
                    [(st.gen + 1, 1)]) := by
                simp [stepEv, relayAudio, send_audio_to_outbound, hc,
                  connect_to_outbound_processor, hdl]
              rw [hstep]
              obtain ⟨i1, i2, i3, i4⟩ :=
                ih { st with connected := true, ctr := 1, gen := st.gen + 1 }
              refine ⟨?_, fun h => by simp [h] at hc, ?_, ?_⟩
              · intro g hg
                rw [emittedFor_append, emittedFor_single_ne 1 (by omega)]
                simpa using i1 g (by simp; omega)
              · intro _
                rw [emittedFor_append, emittedFor_single_ne 1 (by omega)]
                exact ⟨0, by simpa using i1 st.gen (by simp)⟩
              · intro g hg
                by_cases hg1 : g = st.gen + 1
                · subst hg1
                  rw [emittedFor_append, emittedFor_single_eq]
                  obtain ⟨m, hm⟩ := i3 (by simp)
                  simp only at hm
                  refine ⟨m + 1, ?_⟩
                  rw [List.range'_succ, hm]
                  rfl
                · rw [emittedFor_append, emittedFor_single_ne 1 (by omega)]
                  simpa using i4 g (by simp; omega)
        · have hstep : stepEv st (Ev.audio true d b) =
              ({ st with ctr := st.ctr + 1 }, [(st.gen, st.ctr + 1)]) := by
            simp [stepEv, relayAudio, send_audio_to_outbound, hc]
          rw [hstep]
          obtain ⟨i1, i2, i3, i4⟩ := ih { st with ctr := st.ctr + 1 }
          refine ⟨?_, fun h => by simp [h] at hc, ?_, ?_⟩
          · intro g hg
            rw [emittedFor_append, emittedFor_single_ne _ (by omega)]
            simpa using i1 g (by simpa using hg)
          · intro _
            rw [emittedFor_append, emittedFor_single_eq]
            obtain ⟨m, hm⟩ := i3 (by simp [hc])
            simp only at hm
            refine ⟨m + 1, ?_⟩
            rw [List.range'_succ, hm]
            rfl
          · intro g hg
            rw [emittedFor_append, emittedFor_single_ne _ (by omega)]
            simpa using i4 g (by simpa using hg)
      · simp only [Bool.not_eq_true] at hc
        rcases hdl : dialLoop d 1 10 with ⟨res, n, t⟩
        rcases res with _ | k
        · have hstep : stepEv st (Ev.audio a d b) = (st, []) := by
            rcases a with _ | _ <;>
              simp [stepEv, relayAudio, send_audio_to_outbound, hc,
                connect_to_outbound_processor, hdl]
          rw [hstep]
          obtain ⟨i1, i2, i3, i4⟩ := ih st
          exact ⟨fun g hg => by simpa using i1 g hg,
            fun h => by simpa using i2 h,
            fun h => by simp [h] at hc,
            fun g hg => by simpa using i4 g hg⟩
        · rcases b with _ | _
          · have hstep : stepEv st (Ev.audio a d false) =
                ({ st with connected := false, ctr := 1, gen := st.gen + 1 }, []) := by
              rcases a with _ | _ <;>
                simp [stepEv, relayAudio, send_audio_to_outbound, hc,
                  connect_to_outbound_processor, hdl]
            rw [hstep]
            obtain ⟨i1, i2, i3, i4⟩ :=
              ih { st with connected := false, ctr := 1, gen := st.gen + 1 }
            refine ⟨fun g hg => by simpa using i1 g (by simp; omega),
              fun _ => by simpa using i1 st.gen (by simp),
              fun h => by simp [h] at hc,
              fun g hg => ?_⟩
            by_cases hg1 : g = st.gen + 1
            · subst hg1
              exact ⟨0, by simpa using i2 (by simp)⟩
            · simpa using i4 g (by simp; omega)
          · have hstep : stepEv st (Ev.audio a d true) =
                ({ st with connected := true, ctr := 1, gen := st.gen + 1 },
                  [(st.gen + 1, 1)]) := by
              rcases a with _ | _ <;>
                simp [stepEv, relayAudio, send_audio_to_outbound, hc,
                  connect_to_outbound_processor, hdl]
            rw [hstep]
            obtain ⟨i1, i2, i3, i4⟩ :=
              ih { st with connected := true, ctr := 1, gen := st.gen + 1 }
            refine ⟨?_, ?_, fun h => by simp [h] at hc, ?_⟩
            · intro g hg
              rw [emittedFor_append, emittedFor_single_ne 1 (by omega)]
              simpa using i1 g (by simp; omega)
            · intro _
              rw [emittedFor_append, emittedFor_single_ne 1 (by omega)]
              simpa using i1 st.gen (by simp)
            · intro g hg
              by_cases hg1 : g = st.gen + 1
              · subst hg1
                rw [emittedFor_append, emittedFor_single_eq]
                obtain ⟨m, hm⟩ := i3 (by simp)
                simp only at hm
                refine ⟨m + 1, ?_⟩
                rw [List.range'_succ, hm]
                rfl
              · rw [emittedFor_append, emittedFor_single_ne 1 (by omega)]
                simpa using i4 g (by simp; omega)

/-- C1 (amended): over any serialized event trace for one call session the
chunk ids emitted on each single outbound connection (generation `g`) are
exactly `1, 2, ..., m` — the counter starts at 0 on (re)connect, is
pre-incremented per send, and the values on one connection are strictly
increasing with no gaps; a mid-call reconnect however resets the counter,
so values repeat across connections within the session. -/
theorem chunkSeq_per_connection (evs : List Ev) (g : Nat) :
    ∃ m, emittedFor g (runTrace initState evs).2 = List.range' 1 m := by
  obtain ⟨i1, i2, i3, i4⟩ := runTrace_inv evs initState
  rcases Nat.eq_zero_or_pos g with rfl | hg
  · exact ⟨0, i2 rfl⟩
  · exact i4 g hg

end Kokoro

